import Mathlib

/-!
# Verification of the rasm WebAssembly interpreter

A shallow embedding of the execution engine in `src/interpreter/interpreter.rs`
and the data model in `src/module/module.rs` of the rasm repository, together
with proofs settling the specification claims about it.

Conventions of the embedding:

* `u64` operand-stack slots are `Nat` values; every operation truncates its
  inputs exactly where the Rust code converts (`as i32`, `as u32`, ...).
* Signed machine integers are `Int` values obtained by reinterpreting the low
  bits of a slot; Rust `/` and `%` on signed integers are `Int.tdiv` /
  `Int.tmod` (truncation toward zero), and they panic — modelled as `none` —
  on a zero divisor and on the `MIN / -1` overflow, in every build profile.
* Arithmetic overflow that is profile-dependent in Rust (shifts, `usize`
  subtraction) is modelled with the release-profile semantics the spec was
  written against: shift amounts are masked by `bit-width - 1`, and `usize`
  subtraction wraps modulo `2^64`.  Where the debug profile would panic
  earlier, the observable outcome (a trap) is the same and is noted in place.
* Fallible operations (Rust panics / traps) return `Option`/`none`.
* `f32`/`f64` values are modelled by `FVal`: NaN, signed infinity, or a finite
  value represented exactly as a rational.  Only operations whose results are
  exact on these representations are embedded (truncation, rounding, casts),
  which covers the claims about them.
-/

namespace Rasm

/-! ## Machine-integer reinterpretations -/

/-- Reinterpret the low 32 bits of a `u64` slot as an unsigned `u32`
(Rust `as u32`). -/
def toU32 (x : Nat) : Nat := x % 2 ^ 32

/-- Reinterpret the low 32 bits of a `u64` slot as a signed `i32`
(Rust `as i32`). -/
def toI32 (x : Nat) : Int :=
  let r : Nat := x % 2 ^ 32
  if r < 2 ^ 31 then (r : Int) else (r : Int) - 2 ^ 32

/-- Reinterpret a `u64` slot as a signed `i64` (Rust `as i64`). -/
def toI64 (x : Nat) : Int :=
  let r : Nat := x % 2 ^ 64
  if r < 2 ^ 63 then (r : Int) else (r : Int) - 2 ^ 64

/-- Store a signed integer into a `u64` slot (Rust `as u64` on `i32`/`i64`:
sign-extension, i.e. the value modulo `2^64`). -/
def intAsU64 (v : Int) : Nat := (v % (2 ^ 64)).toNat

/-- Truncate an integer to a signed `i32` result (the value delivered by a
wrapping 32-bit operation, sign-interpreted). -/
def wrap32 (v : Int) : Int :=
  let r := v % (2 ^ 32)
  if r < 2 ^ 31 then r else r - 2 ^ 32

/-- Truncate an integer to a signed `i64` result. -/
def wrap64 (v : Int) : Int :=
  let r := v % (2 ^ 64)
  if r < 2 ^ 63 then r else r - 2 ^ 64

/-- Wrapping `usize` subtraction (release profile; `usize` is 64-bit). -/
def wsub64 (a b : Nat) : Nat := (a + (2 ^ 64 - b % 2 ^ 64)) % 2 ^ 64

/-! ## Value and function types (`module.rs`) -/

/-- `ValType`: the value types of the module format. -/
inductive ValType
  | i32
  | i64
  | f32
  | f64
  | funcRef
deriving DecidableEq, Repr

/-- `ValType::to_string` (the `Display` impl in `module.rs`). -/
def valTypeName : ValType → List Char
  | .i32 => ['i', '3', '2']
  | .i64 => ['i', '6', '4']
  | .f32 => ['f', '3', '2']
  | .f64 => ['f', '6', '4']
  | .funcRef => ['f', 'u', 'n', 'c', 'r', 'e', 'f']

/-- `FuncType`: parameter types and result types. -/
structure FuncType where
  paramsTypes : List ValType
  resultTypes : List ValType
deriving DecidableEq, Repr

/-- Rust `Vec::join(",")` on a list of strings (modelled on `List Char`). -/
def joinComma : List (List Char) → List Char
  | [] => []
  | [a] => a
  | a :: b :: t => a ++ ',' :: joinComma (b :: t)

/-- `FuncType::get_signature` (`module.rs`): the string
`"(" ++ params.join(",") ++ ")->(" ++ results.join(",") ++ ")"`. -/
def FuncType.get_signature (ft : FuncType) : List Char :=
  '(' :: (joinComma (ft.paramsTypes.map valTypeName) ++
    (')' :: '-' :: '>' :: '(' ::
      (joinComma (ft.resultTypes.map valTypeName) ++ [')'])))

/-! ## Limits and linear memory (`module.rs`, `interpreter.rs`) -/

/-- `Limits` (also `MemType`): page-count bounds. -/
structure Limits where
  min : Nat
  max : Option Nat
deriving DecidableEq, Repr

/-- `PAGE_SIZE` (`module.rs`). -/
def PAGE_SIZE : Nat := 65536

/-- `MAX_PAGE_COUNT` (`module.rs`). -/
def MAX_PAGE_COUNT : Nat := 65536

/-- `Memory`: a memory type plus the byte vector. -/
structure Memory where
  memType : Limits
  data : List Nat
deriving DecidableEq, Repr

/-- `Memory::new`: `min` pages of zero bytes. -/
def Memory.new (memType : Limits) : Memory :=
  ⟨memType, List.replicate (memType.min * PAGE_SIZE) 0⟩

/-- `Memory::size`: allocated pages, `data.len() / PAGE_SIZE`. -/
def Memory.size (m : Memory) : Nat := m.data.length / PAGE_SIZE

/-- `Memory::grow`: returns the old page count on success, `0xFFFFFFFF` when
`old + n` exceeds `max` (or `MAX_PAGE_COUNT` when no max is declared), and
returns early when `n == 0`. -/
def Memory.grow (m : Memory) (n : Nat) : Nat × Memory :=
  if n = 0 then (m.size, m)
  else if m.size + n > m.memType.max.getD MAX_PAGE_COUNT then (0xFFFFFFFF, m)
  else (m.size, ⟨m.memType, m.data ++ List.replicate (n * PAGE_SIZE) 0⟩)

/-- `Memory::check_offset` followed by the slice access of `Memory::read` /
`Memory::write`: the guard `self.data.len() - length < offset` wraps on
`usize` in the release profile, and the subsequent slice
`data[offset..offset+length]` panics when it is out of range, so the access
traps (`none`) exactly when either check fires.  (In the debug profile the
subtraction itself panics when `length > data.len()`; the outcome is a trap
either way.) -/
def Memory.read (m : Memory) (offset length : Nat) : Option (List Nat) :=
  if wsub64 m.data.length length < offset then none
  else if offset + length ≤ m.data.length then
    some ((m.data.drop offset).take length)
  else none

/-- `Memory::write`, with the same bounds behaviour as `Memory.read`. -/
def Memory.write (m : Memory) (offset : Nat) (bytes : List Nat) : Option Memory :=
  if wsub64 m.data.length bytes.length < offset then none
  else if offset + bytes.length ≤ m.data.length then
    some ⟨m.memType, m.data.take offset ++ bytes ++ m.data.drop (offset + bytes.length)⟩
  else none

/-! ## Globals (`interpreter.rs`) -/

/-- `GlobalType` (`module.rs`). -/
structure GlobalType where
  valType : ValType
  mutable : Bool
deriving DecidableEq, Repr

/-- `GlobalVar`: a global's type and its 64-bit slot. -/
structure GlobalVar where
  globalType : GlobalType
  val : Nat
deriving DecidableEq, Repr

/-- `GlobalVar::get_as_u64`. -/
def GlobalVar.get_as_u64 (g : GlobalVar) : Nat := g.val

/-- `GlobalVar::set_as_u64`: panics (`none`) on an immutable global, before
any modification of the value. -/
def GlobalVar.set_as_u64 (g : GlobalVar) (v : Nat) : Option GlobalVar :=
  if g.globalType.mutable then some { g with val := v } else none

/-! ## Opcodes, instructions, functions and the table

The repository's `OpCode` enum lives in `src/module/opcodes.rs`, which is not
present under `src/`; its constructors are modelled from the spec (§4.6, §6)
— only the discriminants that the control-stack logic compares against
(`Block`, `Loop`, `If`, `Call`) matter for the claims, the rest are carried
so frames of other kinds are representable. -/

/-- Modelled from the spec: the opcode discriminants used by the control
stack and dispatch logic (`opcodes.rs` is not in the source tree). -/
inductive OpCode
  | block
  | loopOp
  | ifOp
  | call
  | brOp
  | brIfOp
  | brTableOp
  | returnOp
  | callIndirectOp
  | otherOp
deriving DecidableEq, Repr

/-- `Instruction` (`instruction.rs`): opcode plus immediate arguments; the
untyped `Box<dyn Any>` immediate is not needed by the claims about frames and
is omitted here (immediates are passed explicitly to the handlers below). -/
structure Instruction where
  opcode : OpCode
deriving DecidableEq, Repr

/-- `Locals` (`module.rs`): a run-length group of local variables. -/
structure Locals where
  n : Nat
  valType : ValType
deriving DecidableEq, Repr

/-- `Code` (`module.rs`): local groups plus the body. -/
structure Code where
  locals : List Locals
  expr : List Instruction
deriving DecidableEq, Repr

/-- `VMFunc` (`interpreter.rs`): a function type together with either
bytecode (`code`) or a native host function.  The native function pointer
itself is host-side and is modelled by its presence. -/
structure VMFunc where
  funcType : FuncType
  code : Option Code
  nativeFunc : Bool
deriving DecidableEq, Repr

/-- `VMFunc::default()` (derived `Default`): empty type, no code, no native
function — the placeholder stored in unbound table slots. -/
def VMFunc.default : VMFunc := ⟨⟨[], []⟩, none, false⟩

/-- `TableType` (`module.rs`). -/
structure TableType where
  elemType : ValType
  limits : Limits
deriving DecidableEq, Repr

/-- `Table` (`interpreter.rs`): element type and the function elements. -/
structure Table where
  elemType : TableType
  elems : List VMFunc
deriving DecidableEq, Repr

/-- `Table::size`. -/
def Table.size (t : Table) : Nat := t.elems.length

/-- `BrTableArgs` (`instruction.rs`): the label list and the default label. -/
structure BrTableArgs where
  labels : List Nat
  default : Nat
deriving DecidableEq, Repr

/-! ## Operand stack (`interpreter.rs`)

`OperandStack` is a `Vec<u64>`; it is modelled as a `List Nat` whose head is
the *bottom* of the stack (index 0 of the vector), so pushes append at the
end, exactly like `Vec::push`. -/

/-- `OperandStack::push_u64s` (`Vec::append`): push a buffer back on top. -/
def pushU64s (s : List Nat) (vals : List Nat) : List Nat := s ++ vals

/-- `OperandStack::pop_u64s(n)`: the top `n` slots in original order, and the
remaining stack.  The slice `slots[(len - n)..]` panics (`none`) when
`n > len` (in the release profile the wrapped start index is out of range,
in the debug profile the subtraction itself panics). -/
def popU64s (s : List Nat) (n : Nat) : Option (List Nat × List Nat) :=
  if n ≤ s.length then some (s.drop (s.length - n), s.take (s.length - n))
  else none

/-- `OperandStack::pop_u64` (`Vec::pop().unwrap()`). -/
def popU64 (s : List Nat) : Option (Nat × List Nat) :=
  match h : s.length with
  | 0 => none
  | _ + 1 => some (s.getLast (by cases s <;> simp_all), s.dropLast)

/-! ## Control frames and the VM state (`interpreter.rs`) -/

/-- `ControlFrame`: opcode, block type, body, base pointer and program
counter. -/
structure ControlFrame where
  opcode : OpCode
  blockType : FuncType
  instrs : List Instruction
  bp : Nat
  pc : Int
deriving DecidableEq, Repr

/-- The mutable VM state relevant to the claims: the control stack (head =
top frame, i.e. the end of the `frames` vector), the operand stack, the
`local_0_idx` register, the globals and the table. -/
structure VmSt where
  controlStack : List ControlFrame
  operandStack : List Nat
  local0Idx : Nat
  globals : List GlobalVar
  table : Option Table
deriving DecidableEq, Repr

/-- `ControlStack::top_call_frame`: the topmost frame whose opcode is
`Call`, scanning from the top. -/
def topCallFrame (frames : List ControlFrame) : Option (ControlFrame × Nat) :=
  match frames with
  | [] => none
  | cf :: rest =>
    if cf.opcode = OpCode.call then some (cf, 0)
    else match topCallFrame rest with
      | some (c, idx) => some (c, idx + 1)
      | none => none

/-- `VM::clear_block`: pop `|result-types|` slots, drop down to the frame's
base pointer, push the results back; when a `Call` frame is cleared and
frames remain, restore `local_0_idx` from the nearest remaining `Call`
frame (its absence would panic the `unwrap`). -/
def clearBlock (cf : ControlFrame) (st : VmSt) : Option VmSt :=
  (popU64s st.operandStack cf.blockType.resultTypes.length).bind (fun pr =>
    (popU64s pr.2 (pr.2.length - cf.bp)).bind (fun qr =>
      if cf.bp ≤ pr.2.length then
        if cf.opcode = OpCode.call ∧ 0 < st.controlStack.length then
          (topCallFrame st.controlStack).map (fun c =>
            { st with operandStack := pushU64s qr.2 pr.1, local0Idx := c.1.bp })
        else some { st with operandStack := pushU64s qr.2 pr.1 }
      else none))

/-- `VM::exit_block`: pop the top control frame and clear it. -/
def exitBlock (st : VmSt) : Option VmSt :=
  match st.controlStack with
  | [] => none
  | cf :: rest => clearBlock cf { st with controlStack := rest }

/-- `VM::br`: pop `label_idx` control frames; if the new top frame is not a
`Loop`, exit it normally, otherwise reset its `pc` to 0 and reset its
operands (pop `|param-types|`, drop to base pointer, push back). -/
def br (labelIdx : Nat) (st : VmSt) : Option VmSt :=
  if st.controlStack.length ≤ labelIdx then none
  else
    match st.controlStack.drop labelIdx with
    | [] => none
    | cf :: rest =>
      if cf.opcode ≠ OpCode.loopOp then
        exitBlock { st with controlStack := cf :: rest }
      else
        match popU64s st.operandStack cf.blockType.paramsTypes.length with
        | none => none
        | some (results, s1) =>
          match popU64s s1 (s1.length - cf.bp) with
          | none => none
          | some (_, s2) =>
            if cf.bp ≤ s1.length then
              some { st with controlStack := { cf with pc := 0 } :: rest,
                             operandStack := pushU64s s2 results }
            else none

/-- `VM::br_table`: pop a `u32` index; branch to `labels[idx]` when
`idx < labels.len()` — and otherwise do nothing further (the decoded
`default` label is never consulted). -/
def brTable (args : BrTableArgs) (st : VmSt) : Option VmSt :=
  match popU64 st.operandStack with
  | none => none
  | some (v, s') =>
    let idx := toU32 v
    let st' := { st with operandStack := s' }
    if h : idx < args.labels.length then br (args.labels.get ⟨idx, h⟩) st'
    else some st'

/-- `VM::global_get`: push `globals[idx]` (an out-of-range index panics). -/
def globalGet (idx : Nat) (st : VmSt) : Option VmSt :=
  match st.globals.get? idx with
  | none => none
  | some g => some { st with operandStack := st.operandStack ++ [g.get_as_u64] }

/-- `VM::global_set`: pop a value and store it via
`GlobalVar::set_as_u64`, which panics on an immutable global. -/
def globalSet (idx : Nat) (st : VmSt) : Option VmSt :=
  match popU64 st.operandStack with
  | none => none
  | some (v, s') =>
    match st.globals.get? idx with
    | none => none
    | some g =>
      match g.set_as_u64 v with
      | none => none
      | some g' => some { st with operandStack := s', globals := st.globals.set idx g' }

/-! ## Signed division and remainder (`interpreter.rs`)

Each handler pops `v2` then `v1` (so below, `x1` is the second-from-top slot
and `x2` the top slot) and pushes the Rust result.  Rust `/` and `%` on
signed integers panic on a zero divisor and on the `MIN / -1` overflow in
every build profile; both panics are modelled as `none`. -/

/-- `VM::i32_divs`: `v1 / v2` on `i32`. -/
def i32_divs (x1 x2 : Nat) : Option Nat :=
  let v2 := toI32 x2
  let v1 := toI32 x1
  if v2 = 0 then none
  else if v1 = -(2 ^ 31) ∧ v2 = -1 then none
  else some (intAsU64 (v1.tdiv v2))

/-- `VM::i32_rems`: `v1 % v2` on `i32`. -/
def i32_rems (x1 x2 : Nat) : Option Nat :=
  let v2 := toI32 x2
  let v1 := toI32 x1
  if v2 = 0 then none
  else if v1 = -(2 ^ 31) ∧ v2 = -1 then none
  else some (intAsU64 (v1.tmod v2))

/-- `VM::i64_divs`: `v1 / v2` on `i64`. -/
def i64_divs (x1 x2 : Nat) : Option Nat :=
  let v2 := toI64 x2
  let v1 := toI64 x1
  if v2 = 0 then none
  else if v1 = -(2 ^ 63) ∧ v2 = -1 then none
  else some (intAsU64 (v1.tdiv v2))

/-- `VM::i64_rems`: `v1 % v2` on `i64`. -/
def i64_rems (x1 x2 : Nat) : Option Nat :=
  let v2 := toI64 x2
  let v1 := toI64 x1
  if v2 = 0 then none
  else if v1 = -(2 ^ 63) ∧ v2 = -1 then none
  else some (intAsU64 (v1.tmod v2))

/-! ## Shifts and rotates (`interpreter.rs`)

The source computes the amount as `v2 % 64` for *both* widths (Rust `%`,
truncated remainder) and then applies the Rust shift, which in the release
profile masks the amount by `bit-width - 1` after reinterpreting it
unsigned. -/

/-- The effective amount of a Rust 32-bit shift whose right operand is the
signed integer `b`: `b as u32 & 31`. -/
def shAmt32 (b : Int) : Nat := (b % (2 ^ 32)).toNat % 32

/-- The effective amount of a Rust 64-bit shift: `b as u64 & 63`. -/
def shAmt64 (b : Int) : Nat := (b % (2 ^ 64)).toNat % 64

/-- `VM::i32_shl`: `v1 << (v2 % 64)` on `i32`. -/
def i32_shl (x1 x2 : Nat) : Nat :=
  let v2 := toI32 x2
  let v1 := toI32 x1
  intAsU64 (wrap32 (v1 * 2 ^ shAmt32 (v2.tmod 64)))

/-- `VM::i32_shrs`: `v1 >> (v2 % 64)` on `i32` (arithmetic shift = floor
division by the power of two). -/
def i32_shrs (x1 x2 : Nat) : Nat :=
  let v2 := toI32 x2
  let v1 := toI32 x1
  intAsU64 (v1.fdiv (2 ^ shAmt32 (v2.tmod 64)))

/-- `VM::i32_shru`: `v1 >> (v2 % 64)` on `u32`. -/
def i32_shru (x1 x2 : Nat) : Nat :=
  let v2 := toU32 x2
  let v1 := toU32 x1
  v1 / 2 ^ (v2 % 64 % 32)

/-- Rotate the 32-bit pattern `x` left by `n` (Rust `u32::rotate_left` /
`i32::rotate_left` on the bit pattern; the amount is taken modulo 32). -/
def rotl32 (x n : Nat) : Nat :=
  let r := n % 32
  x * 2 ^ r % 2 ^ 32 + x % 2 ^ 32 / 2 ^ (32 - r)

/-- Rotate the 32-bit pattern `x` right by `n`. -/
def rotr32 (x n : Nat) : Nat :=
  let r := n % 32
  x % 2 ^ 32 / 2 ^ r + x % 2 ^ r * 2 ^ (32 - r)

/-- `VM::i32_rotl`: `v1.rotate_left(v2 as u32)`. -/
def i32_rotl (x1 x2 : Nat) : Nat :=
  let v2 := toI32 x2
  let v1 := toI32 x1
  intAsU64 (toI32 (rotl32 (v1 % (2 ^ 32)).toNat (v2 % (2 ^ 32)).toNat))

/-- `VM::i32_rotr`: `v1.rotate_right(v2 as u32)`. -/
def i32_rotr (x1 x2 : Nat) : Nat :=
  let v2 := toI32 x2
  let v1 := toI32 x1
  intAsU64 (toI32 (rotr32 (v1 % (2 ^ 32)).toNat (v2 % (2 ^ 32)).toNat))

/-- `VM::i64_shl`: `v1 << (v2 % 64)` on `i64`. -/
def i64_shl (x1 x2 : Nat) : Nat :=
  let v2 := toI64 x2
  let v1 := toI64 x1
  intAsU64 (wrap64 (v1 * 2 ^ shAmt64 (v2.tmod 64)))

/-- `VM::i64_shrs`: `v1 >> (v2 % 64)` on `i64`. -/
def i64_shrs (x1 x2 : Nat) : Nat :=
  let v2 := toI64 x2
  let v1 := toI64 x1
  intAsU64 (v1.fdiv (2 ^ shAmt64 (v2.tmod 64)))

/-- `VM::i64_shru`: `v1 >> (v2 % 64)` on `u64`. -/
def i64_shru (x1 x2 : Nat) : Nat :=
  let v2 := x2 % 2 ^ 64
  let v1 := x1 % 2 ^ 64
  v1 / 2 ^ (v2 % 64 % 64)

/-- Rotate the 64-bit pattern `x` left by `n` (amount modulo 64). -/
def rotl64 (x n : Nat) : Nat :=
  let r := n % 64
  x * 2 ^ r % 2 ^ 64 + x % 2 ^ 64 / 2 ^ (64 - r)

/-- Rotate the 64-bit pattern `x` right by `n`. -/
def rotr64 (x n : Nat) : Nat :=
  let r := n % 64
  x % 2 ^ 64 / 2 ^ r + x % 2 ^ r * 2 ^ (64 - r)

/-- `VM::i64_rotl`: `v1.rotate_left(v2 as u32)` — the amount is first
truncated to `u32`, then reduced modulo 64 by `rotate_left`. -/
def i64_rotl (x1 x2 : Nat) : Nat :=
  let v2 := toI64 x2
  let v1 := toI64 x1
  intAsU64 (toI64 (rotl64 (v1 % (2 ^ 64)).toNat (v2 % (2 ^ 32)).toNat))

/-- `VM::i64_rotr`: `v1.rotate_right(v2 as u32)`. -/
def i64_rotr (x1 x2 : Nat) : Nat :=
  let v2 := toI64 x2
  let v1 := toI64 x1
  intAsU64 (toI64 (rotr64 (v1 % (2 ^ 64)).toNat (v2 % (2 ^ 32)).toNat))

/-! ## Indirect calls (`interpreter.rs`) -/

/-- The action `VM::call_indrect` ends in: a trap, or invoking the table
entry as an ordinary internal or external call. -/
inductive CallAction
  | trap
  | callInternal (f : VMFunc)
  | callExternal (f : VMFunc)
deriving DecidableEq, Repr

/-- `VM::call_indrect` with the popped `u32` index `i`: panic when there is
no table or `i > table.size()` (and `Table::get_elem` panics on `i == size`);
panic when the signatures of the entry's type and `type_sec[type_idx]`
differ (`type_sec[type_idx]` itself panics when out of range); otherwise
dispatch on the entry, and panic when it is unbound. -/
def callIndirect (table : Option Table) (typeSec : List FuncType)
    (typeIdx : Nat) (i : Nat) : CallAction :=
  match table with
  | none => .trap
  | some t =>
    if t.size < i then .trap
    else
      match t.elems.get? i with
      | none => .trap
      | some funcInTable =>
        match typeSec.get? typeIdx with
        | none => .trap
        | some funcType =>
          if funcInTable.funcType.get_signature ≠ funcType.get_signature then .trap
          else if funcInTable.code.isSome then .callInternal funcInTable
          else if funcInTable.nativeFunc then .callExternal funcInTable
          else .trap

/-! ## Floating-point models (`interpreter.rs`)

An `f32`/`f64` operand is NaN, a signed infinity, or a finite value; every
finite `f32`/`f64` is an exact rational, and the operations embedded below
(truncation, rounding, integer casts) are exact, so they are represented on
`ℚ` without loss. -/

/-- A floating-point operand: NaN, infinity (`neg` gives the sign), or an
exact finite value. -/
inductive FVal
  | nan
  | inf (neg : Bool)
  | fin (q : ℚ)
deriving DecidableEq

/-- Truncation toward zero of a rational, as an integer (`f32::trunc` /
`f64::trunc` on finite values, which is exact). -/
def ratTruncZ (q : ℚ) : Int := if 0 ≤ q then ⌊q⌋ else ⌈q⌉

/-- `f32::trunc` / `f64::trunc`: NaN and infinities are returned unchanged. -/
def fTrunc : FVal → FVal
  | .nan => .nan
  | .inf s => .inf s
  | .fin q => .fin (ratTruncZ q)

/-- The Rust `as i32` cast from a float: NaN becomes 0, otherwise the value
is truncated toward zero and saturated to `[i32::MIN, i32::MAX]`.  It never
panics. -/
def castToI32 : FVal → Int
  | .nan => 0
  | .inf neg => if neg then -(2 ^ 31) else 2 ^ 31 - 1
  | .fin q =>
    let t := ratTruncZ q
    if t < -(2 ^ 31) then -(2 ^ 31) else if 2 ^ 31 - 1 < t then 2 ^ 31 - 1 else t

/-- `VM::i32_trunc_f32`: pop `v`, push `v.trunc() as i32` — a total
operation; no input traps. -/
def i32_trunc_f32 (v : FVal) : Nat := intAsU64 (castToI32 (fTrunc v))

/-- Rust `f32::round` / `f64::round` on a finite value: nearest integer,
ties away from zero (exact). -/
def rustRound (q : ℚ) : Int := if 0 ≤ q then ⌊q + 1 / 2⌋ else ⌈q - 1 / 2⌉

/-- `VM::f32_nearest`: pop `v`, push `v.round()`. -/
def f32_nearest : FVal → FVal
  | .nan => .nan
  | .inf s => .inf s
  | .fin q => .fin (rustRound q)

/-- `VM::f64_nearest`: pop `v`, push `v.round()`. -/
def f64_nearest : FVal → FVal
  | .nan => .nan
  | .inf s => .inf s
  | .fin q => .fin (rustRound q)

/-! ## Engine construction (`interpreter.rs`) -/

/-- The memory created by `VM::new`: the first entry of the module's memory
section, or a `{ min: 0, max: None }` memory when the section is empty. -/
def vmNewMemory (memSec : List Limits) : Memory :=
  match memSec with
  | m :: _ => Memory.new m
  | [] => Memory.new ⟨0, none⟩

/-! ## Claim C6: `Memory::grow` -/

/-- C6 (amended): when `old + n ≤ max-or-65536`, `grow(n)` returns the old
page count, the page count increases by exactly `n`, and the appended
`n * 65536` bytes are all zero; when `n ≥ 1` and `old + n` exceeds the
bound, `grow(n)` returns `2^32 - 1` and leaves the memory unchanged
(`grow(0)` short-circuits and always returns the old page count). -/
theorem Memory.grow_spec (m : Memory) (n : Nat) :
    (m.size + n ≤ m.memType.max.getD MAX_PAGE_COUNT →
      (m.grow n).1 = m.size ∧ (m.grow n).2.size = m.size + n ∧
      (m.grow n).2.data = m.data ++ List.replicate (n * PAGE_SIZE) 0) ∧
    (1 ≤ n → m.memType.max.getD MAX_PAGE_COUNT < m.size + n →
      (m.grow n).1 = 0xFFFFFFFF ∧ (m.grow n).2 = m) := by
  constructor
  · intro hle
    by_cases hn : n = 0
    · subst hn
      simp [Memory.grow]
    · have hgt : ¬ m.size + n > m.memType.max.getD MAX_PAGE_COUNT := by omega
      have hg : m.grow n =
          (m.size, ⟨m.memType, m.data ++ List.replicate (n * PAGE_SIZE) 0⟩) := by
        rw [Memory.grow, if_neg hn, if_neg hgt]
      rw [hg]
      refine ⟨rfl, ?_, rfl⟩
      show (m.data ++ List.replicate (n * PAGE_SIZE) 0).length / PAGE_SIZE = _
      rw [List.length_append, List.length_replicate]
      have hp : 0 < PAGE_SIZE := by norm_num [PAGE_SIZE]
      exact Nat.add_mul_div_right _ _ hp
  · intro hn hgt
    have hn0 : ¬ n = 0 := by omega
    have h : m.size + n > m.memType.max.getD MAX_PAGE_COUNT := hgt
    rw [Memory.grow, if_neg hn0, if_pos h]
    exact ⟨rfl, rfl⟩

/-- C6 witness: a 1-page memory with max 2 grows by one page successfully,
and growing it by two pages fails leaving it unchanged. -/
theorem Memory.grow_spec_witness :
    ((Memory.new ⟨1, some 2⟩).grow 1).2.size = (Memory.new ⟨1, some 2⟩).size + 1 ∧
    ((Memory.new ⟨1, some 2⟩).grow 2).2 = Memory.new ⟨1, some 2⟩ := by
  have hdata : (Memory.new ⟨1, some 2⟩).data = List.replicate (1 * PAGE_SIZE) 0 := rfl
  have hsize : (Memory.new ⟨1, some 2⟩).size = 1 := by
    rw [Memory.size, hdata, List.length_replicate]
    norm_num [PAGE_SIZE]
  have hmax : (Memory.new ⟨1, some 2⟩).memType.max.getD MAX_PAGE_COUNT = 2 := rfl
  constructor
  · exact ((Memory.grow_spec (Memory.new ⟨1, some 2⟩) 1).1
      (by rw [hsize, hmax])).2.1
  · exact ((Memory.grow_spec (Memory.new ⟨1, some 2⟩) 2).2 (by norm_num)
      (by rw [hsize, hmax]; norm_num)).2

/-- C6 counterexample to the claim as stated: on a memory whose page count
already exceeds its declared max (the decoder never validates
`min ≤ max`), `grow(0)` returns the old page count, not `2^32 - 1`,
although `old + 0 > max`. -/
theorem Memory.grow_zero_over_max :
    (let m : Memory := ⟨⟨1, some 0⟩, List.replicate PAGE_SIZE 0⟩
     m.memType.max.getD MAX_PAGE_COUNT < m.size + 0 ∧
       (m.grow 0).1 = 1 ∧ (m.grow 0).1 ≠ 0xFFFFFFFF ∧ (m.grow 0).2 = m) := by
  have hdata : (⟨⟨1, some 0⟩, List.replicate PAGE_SIZE 0⟩ : Memory).data =
      List.replicate PAGE_SIZE 0 := rfl
  have hsize : (⟨⟨1, some 0⟩, List.replicate PAGE_SIZE 0⟩ : Memory).size = 1 := by
    rw [Memory.size, hdata, List.length_replicate]
    norm_num [PAGE_SIZE]
  have hg : (⟨⟨1, some 0⟩, List.replicate PAGE_SIZE 0⟩ : Memory).grow 0 =
      (1, ⟨⟨1, some 0⟩, List.replicate PAGE_SIZE 0⟩) := by
    rw [Memory.grow, if_pos rfl, hsize]
  refine ⟨?_, ?_, ?_, ?_⟩
  · rw [hsize]
    norm_num
  · rw [hg]
  · rw [hg]
    norm_num
  · rw [hg]

/-! ## Claim C10: engine without a memory section -/

/-- C10: a module with an empty memory section gets a linear memory of 0
pages (an empty byte vector); every read or write of positive width traps,
and `size` (what `memory.size` pushes) is 0. -/
theorem vmNewMemory_no_mem_sec :
    (vmNewMemory []).data = [] ∧ (vmNewMemory []).size = 0 ∧
    (∀ offset length : Nat, 1 ≤ length →
      (vmNewMemory []).read offset length = none) ∧
    (∀ (offset : Nat) (bytes : List Nat), bytes ≠ [] →
      (vmNewMemory []).write offset bytes = none) := by
  have hdata : (vmNewMemory []).data = [] := by
    simp [vmNewMemory, Memory.new]
  refine ⟨hdata, ?_, ?_, ?_⟩
  · simp [Memory.size, hdata]
  · intro offset length hlen
    simp only [Memory.read, hdata, List.length_nil]
    split
    · rfl
    · rw [if_neg]
      omega
  · intro offset bytes hb
    have hlen : 1 ≤ bytes.length := by
      cases bytes with
      | nil => exact absurd rfl hb
      | cons a t => simp
    simp only [Memory.write, hdata, List.length_nil]
    split
    · rfl
    · rw [if_neg]
      omega

/-- C10 witness: a 4-byte load at offset 0 and a 1-byte store both trap on
the empty memory, whose page count is 0. -/
theorem vmNewMemory_no_mem_sec_witness :
    (vmNewMemory []).size = 0 ∧ (vmNewMemory []).read 0 4 = none ∧
      (vmNewMemory []).write 0 [7] = none :=
  ⟨vmNewMemory_no_mem_sec.2.1,
   vmNewMemory_no_mem_sec.2.2.1 0 4 (by norm_num),
   vmNewMemory_no_mem_sec.2.2.2 0 [7] (by simp)⟩

/-! ## Claim C9: immutable globals -/

/-- C9: `set_as_u64` on an immutable global panics before modifying the
value, so `global.set` targeting an immutable global traps without writing
it, and `global.get` never modifies the globals. -/
theorem immutable_global_set_traps :
    (∀ (g : GlobalVar) (v : Nat), g.globalType.mutable = false →
      g.set_as_u64 v = none) ∧
    (∀ (idx : Nat) (st : VmSt) (g : GlobalVar),
      st.globals.get? idx = some g → g.globalType.mutable = false →
      globalSet idx st = none) ∧
    (∀ (idx : Nat) (st st' : VmSt), globalGet idx st = some st' →
      st'.globals = st.globals) := by
  refine ⟨?_, ?_, ?_⟩
  · intro g v h
    simp [GlobalVar.set_as_u64, h]
  · intro idx st g hg h
    simp only [globalSet]
    cases hpop : popU64 st.operandStack with
    | none => rfl
    | some p =>
      simp only [hg, GlobalVar.set_as_u64, h]
      simp
  · intro idx st st' h
    simp only [globalGet] at h
    cases hg : st.globals.get? idx with
    | none => rw [hg] at h; exact absurd h (by simp)
    | some g =>
      rw [hg] at h
      cases h
      rfl

/-- C9 witness: setting the immutable global 0 of a concrete state traps. -/
theorem immutable_global_set_traps_witness :
    globalSet 0 ⟨[], [9], 0, [⟨⟨ValType.i32, false⟩, 5⟩], none⟩ = none :=
  immutable_global_set_traps.2.1 0 ⟨[], [9], 0, [⟨⟨ValType.i32, false⟩, 5⟩], none⟩
    ⟨⟨ValType.i32, false⟩, 5⟩ rfl rfl

/-! ## Claim C1: normal block exit -/

/-- C1: whenever a normal block exit (`exit_block`, which pops the top
control frame and runs `clear_block`) succeeds, the resulting operand stack
is the prefix below the frame's base pointer followed by the top
`k = |result-types|` slots of the original stack, in order. -/
theorem exit_block_stack (st st' : VmSt) (cf : ControlFrame)
    (rest : List ControlFrame) (hcs : st.controlStack = cf :: rest)
    (h : exitBlock st = some st') :
    st'.operandStack = st.operandStack.take cf.bp ++
      st.operandStack.drop
        (st.operandStack.length - cf.blockType.resultTypes.length) := by
  obtain ⟨cs, s, l0, gs, tb⟩ := st
  simp only at hcs
  subst hcs
  simp only [exitBlock] at h
  rw [clearBlock] at h
  cases h1 : popU64s s cf.blockType.resultTypes.length with
  | none => rw [h1] at h; exact absurd h (by simp)
  | some p =>
    obtain ⟨results, s1⟩ := p
    rw [h1] at h
    simp only [Option.some_bind] at h
    rw [popU64s] at h1
    by_cases hk : cf.blockType.resultTypes.length ≤ s.length
    · rw [if_pos hk] at h1
      injection h1 with h1
      injection h1 with hres hs1
      cases h2 : popU64s s1 (s1.length - cf.bp) with
      | none =>
        rw [popU64s] at h2
        rw [if_pos (by omega)] at h2
        exact absurd h2 (by simp)
      | some q =>
        obtain ⟨dropped, s2⟩ := q
        rw [h2] at h
        simp only [Option.some_bind] at h
        rw [popU64s, if_pos (by omega)] at h2
        injection h2 with h2
        injection h2 with hdr hs2
        by_cases hbp : cf.bp ≤ s1.length
        · rw [if_pos hbp] at h
          have hs2' : s2 = List.take cf.bp s1 := by
            rw [← hs2]
            congr 1
            omega
          have hfinal : st'.operandStack = pushU64s s2 results := by
            split at h
            · cases h3 : topCallFrame rest with
              | none => rw [h3] at h; exact absurd h (by simp)
              | some c =>
                rw [h3, Option.map_some'] at h
                injection h with h
                rw [← h]
            · injection h with h
              rw [← h]
          have hlen1 : s1.length = s.length - cf.blockType.resultTypes.length := by
            rw [← hs1, List.length_take]
            omega
          have hbp' : cf.bp ≤ s.length - cf.blockType.resultTypes.length := by
            omega
          rw [hfinal, pushU64s, hs2', ← hres, ← hs1, List.take_take,
            Nat.min_eq_left hbp']
        · rw [if_neg hbp] at h
          exact absurd h (by simp)
    · rw [if_neg hk] at h1
      exact absurd h1 (by simp)

/-- C1 witness: exiting a block frame with base pointer 1 and one result
type on the stack `[10, 20, 30]` leaves `[10, 30]`. -/
theorem exit_block_stack_witness :
    (VmSt.mk [] [10, 30] 0 [] none).operandStack =
      ([10, 20, 30] : List Nat).take 1 ++ ([10, 20, 30] : List Nat).drop (3 - 1) := by
  have h := exit_block_stack
    ⟨[⟨OpCode.block, ⟨[], [ValType.i32]⟩, [], 1, 0⟩], [10, 20, 30], 0, [], none⟩
    ⟨[], [10, 30], 0, [], none⟩
    ⟨OpCode.block, ⟨[], [ValType.i32]⟩, [], 1, 0⟩ [] rfl (by decide)
  exact h

/-! ## Claim C2: `br_table` ignores its default label -/

/-- C2: at the failing input — a `br_table` with an empty label list and
default label 0, executed with index 7 on top of the stack inside a block
frame — the interpreter pops the index and performs no branch at all: the
control stack is left untouched.  Branching to the default label 0 (what
the claim requires) would instead exit the block frame, emptying the
control stack. -/
theorem br_table_ignores_default :
    brTable ⟨[], 0⟩
        ⟨[⟨OpCode.block, ⟨[], []⟩, [], 0, 0⟩], [7], 0, [], none⟩ =
      some ⟨[⟨OpCode.block, ⟨[], []⟩, [], 0, 0⟩], [], 0, [], none⟩ ∧
    br 0 ⟨[⟨OpCode.block, ⟨[], []⟩, [], 0, 0⟩], [], 0, [], none⟩ =
      some ⟨[], [], 0, [], none⟩ := by
  constructor
  · decide
  · decide

/-! ## Claim C3: signed division and remainder -/

/-- C3 (amended): `div_s` and `rem_s` (both widths) trap on a zero divisor;
*both* trap on the `MIN / -1` overflow (Rust `%` panics there just like
`/`); in all remaining cases they push the quotient / remainder truncated
toward zero. -/
theorem div_rem_signed_spec (x1 x2 : Nat) :
    (toI32 x2 = 0 → i32_divs x1 x2 = none ∧ i32_rems x1 x2 = none) ∧
    (toI32 x1 = -(2 ^ 31) → toI32 x2 = -1 →
      i32_divs x1 x2 = none ∧ i32_rems x1 x2 = none) ∧
    (toI32 x2 ≠ 0 → ¬(toI32 x1 = -(2 ^ 31) ∧ toI32 x2 = -1) →
      i32_divs x1 x2 = some (intAsU64 ((toI32 x1).tdiv (toI32 x2))) ∧
      i32_rems x1 x2 = some (intAsU64 ((toI32 x1).tmod (toI32 x2)))) ∧
    (toI64 x2 = 0 → i64_divs x1 x2 = none ∧ i64_rems x1 x2 = none) ∧
    (toI64 x1 = -(2 ^ 63) → toI64 x2 = -1 →
      i64_divs x1 x2 = none ∧ i64_rems x1 x2 = none) ∧
    (toI64 x2 ≠ 0 → ¬(toI64 x1 = -(2 ^ 63) ∧ toI64 x2 = -1) →
      i64_divs x1 x2 = some (intAsU64 ((toI64 x1).tdiv (toI64 x2))) ∧
      i64_rems x1 x2 = some (intAsU64 ((toI64 x1).tmod (toI64 x2)))) := by
  refine ⟨?_, ?_, ?_, ?_, ?_, ?_⟩
  · intro h
    constructor <;> simp [i32_divs, i32_rems, h]
  · intro h1 h2
    constructor <;> simp [i32_divs, i32_rems, h1, h2]
  · intro h1 h2
    exact ⟨by simp only [i32_divs, if_neg h1, if_neg h2],
           by simp only [i32_rems, if_neg h1, if_neg h2]⟩
  · intro h
    constructor <;> simp [i64_divs, i64_rems, h]
  · intro h1 h2
    constructor <;> simp [i64_divs, i64_rems, h1, h2]
  · intro h1 h2
    exact ⟨by simp only [i64_divs, if_neg h1, if_neg h2],
           by simp only [i64_rems, if_neg h1, if_neg h2]⟩

/-- C3 witness: `7 div_s -2 = -3` and `7 rem_s -2 = 1` (truncation toward
zero), via the general theorem. -/
theorem div_rem_signed_spec_witness :
    i32_divs 7 (intAsU64 (-2)) = some (intAsU64 (-3)) ∧
    i32_rems 7 (intAsU64 (-2)) = some (intAsU64 1) := by
  have h := (div_rem_signed_spec 7 (intAsU64 (-2))).2.2.1 (by decide) (by decide)
  exact ⟨h.1.trans (by decide), h.2.trans (by decide)⟩

/-- C3 counterexample to the claim as stated: `rem_s` with `v1 = INT32_MIN`
and `v2 = -1` is not a "zero divisor" case and not a signed *division*, so
the claim requires the truncated remainder 0; the code traps (Rust `%`
panics on this overflow). -/
theorem i32_rems_min_neg_one_traps :
    toI32 (intAsU64 (-1)) ≠ 0 ∧
    i32_rems (intAsU64 (-(2 ^ 31))) (intAsU64 (-1)) = none ∧
    i32_rems (intAsU64 (-(2 ^ 31))) (intAsU64 (-1)) ≠
      some (intAsU64 ((toI32 (intAsU64 (-(2 ^ 31)))).tmod
        (toI32 (intAsU64 (-1))))) := by
  refine ⟨by decide, by decide, by decide⟩

/-! ## Claim C4: float-to-integer truncation never traps -/

/-- C4: the code's `i32.trunc_f32_s` is the Rust saturating cast and never
traps: NaN is pushed as 0, an input above `i32::MAX` (such as `2^31`, exact
in `f32`) is pushed as `i32::MAX`, and `+inf` is pushed as `i32::MAX` — all
cases where the claim requires a trap. -/
theorem i32_trunc_f32_never_traps :
    i32_trunc_f32 FVal.nan = intAsU64 0 ∧
    i32_trunc_f32 (FVal.fin ((2 : ℚ) ^ 31)) = intAsU64 (2 ^ 31 - 1) ∧
    i32_trunc_f32 (FVal.inf false) = intAsU64 (2 ^ 31 - 1) := by
  refine ⟨rfl, ?_, rfl⟩
  have ht : ratTruncZ ((2 : ℚ) ^ 31) = 2 ^ 31 := by
    rw [ratTruncZ, if_pos (by norm_num)]
    norm_num
  rw [i32_trunc_f32, fTrunc, castToI32]
  rw [ht]
  norm_num [ratTruncZ]

/-! ## Claim C8: `nearest` rounds ties away from zero -/

/-- C8: `f32.nearest`/`f64.nearest` are Rust `round()`, which resolves ties
*away from zero*: the halfway input 2.5 (exact in both formats) is rounded
to 3, not to its even neighbour 2 as the claim requires, and -2.5 is
rounded to -3. -/
theorem nearest_ties_away_from_zero :
    f32_nearest (FVal.fin (5 / 2)) = FVal.fin 3 ∧
    f32_nearest (FVal.fin (5 / 2)) ≠ FVal.fin 2 ∧
    f64_nearest (FVal.fin (-(5 / 2))) = FVal.fin (-3) := by
  have h1 : rustRound (5 / 2) = 3 := by
    rw [rustRound, if_pos (by norm_num)]
    norm_num
  have h2 : rustRound (-(5 / 2)) = -3 := by
    have harg : (-(5 / 2 : ℚ) - 1 / 2) = ((-3 : Int) : ℚ) := by norm_num
    rw [rustRound, if_neg (by norm_num), harg, Int.ceil_intCast]
  refine ⟨?_, ?_, ?_⟩
  · rw [f32_nearest, h1]
    norm_num
  · rw [f32_nearest, h1]
    norm_num
  · rw [f64_nearest, h2]
    norm_num

/-! ## Claim C5: shift and rotate amounts are reduced modulo the bit-width

The source computes `v2 % 64` for both widths, but the Rust shift then
masks the amount by `bit-width - 1`, and `rotate_left`/`rotate_right`
reduce their argument modulo the bit width, so the composite amount is
congruent to the operand modulo the bit-width in every case. -/

theorem toI32_mod_pow32 (x : Nat) :
    toI32 x % (2 ^ 32) = ((x % 2 ^ 32 : Nat) : Int) := by
  simp only [toI32]
  split <;> omega

theorem toI64_mod_pow64 (x : Nat) :
    toI64 x % (2 ^ 64) = ((x % 2 ^ 64 : Nat) : Int) := by
  simp only [toI64]
  split <;> omega

theorem toI64_mod_pow32 (x : Nat) :
    toI64 x % (2 ^ 32) = ((x % 2 ^ 32 : Nat) : Int) := by
  simp only [toI64]
  split <;> omega

theorem shAmt32_toI32_tmod (x : Nat) : shAmt32 ((toI32 x).tmod 64) = x % 32 := by
  have hax := toI32_mod_pow32 x
  have h1 := Int.tdiv_add_tmod (toI32 x) 64
  rw [shAmt32]
  generalize (toI32 x).tmod 64 = t at h1 ⊢
  generalize (toI32 x).tdiv 64 = d at h1
  generalize toI32 x = a at hax h1
  omega

theorem shAmt64_toI64_tmod (x : Nat) : shAmt64 ((toI64 x).tmod 64) = x % 64 := by
  have hax := toI64_mod_pow64 x
  have h1 := Int.tdiv_add_tmod (toI64 x) 64
  rw [shAmt64]
  generalize (toI64 x).tmod 64 = t at h1 ⊢
  generalize (toI64 x).tdiv 64 = d at h1
  generalize toI64 x = a at hax h1
  omega

theorem toI32_mod_toNat (x : Nat) : (toI32 x % (2 ^ 32)).toNat = x % 2 ^ 32 := by
  rw [toI32_mod_pow32]
  omega

theorem toI64_mod64_toNat (x : Nat) : (toI64 x % (2 ^ 64)).toNat = x % 2 ^ 64 := by
  rw [toI64_mod_pow64]
  omega

theorem toI64_mod32_toNat (x : Nat) : (toI64 x % (2 ^ 32)).toNat = x % 2 ^ 32 := by
  rw [toI64_mod_pow32]
  omega

/-- C5: every shift and rotate instruction gives the same result as the
same instruction executed with the amount operand reduced modulo the
bit-width (32 for the i32 variants, 64 for the i64 variants). -/
theorem shift_rotate_amount_mod (x1 x2 : Nat) :
    i32_shl x1 x2 = i32_shl x1 (x2 % 32) ∧
    i32_shrs x1 x2 = i32_shrs x1 (x2 % 32) ∧
    i32_shru x1 x2 = i32_shru x1 (x2 % 32) ∧
    i32_rotl x1 x2 = i32_rotl x1 (x2 % 32) ∧
    i32_rotr x1 x2 = i32_rotr x1 (x2 % 32) ∧
    i64_shl x1 x2 = i64_shl x1 (x2 % 64) ∧
    i64_shrs x1 x2 = i64_shrs x1 (x2 % 64) ∧
    i64_shru x1 x2 = i64_shru x1 (x2 % 64) ∧
    i64_rotl x1 x2 = i64_rotl x1 (x2 % 64) ∧
    i64_rotr x1 x2 = i64_rotr x1 (x2 % 64) := by
  have hm32 : x2 % 32 % 32 = x2 % 32 := by omega
  have hm64 : x2 % 64 % 64 = x2 % 64 := by omega
  refine ⟨?_, ?_, ?_, ?_, ?_, ?_, ?_, ?_, ?_, ?_⟩
  · simp only [i32_shl, shAmt32_toI32_tmod, hm32]
  · simp only [i32_shrs, shAmt32_toI32_tmod, hm32]
  · have h1 : x2 % 2 ^ 32 % 64 % 32 = x2 % 32 := by omega
    have h2 : x2 % 32 % 2 ^ 32 % 64 % 32 = x2 % 32 := by omega
    simp only [i32_shru, toU32, h1, h2]
  · have h1 : x2 % 2 ^ 32 % 32 = x2 % 32 := by omega
    have h2 : x2 % 32 % 2 ^ 32 % 32 = x2 % 32 := by omega
    simp only [i32_rotl, rotl32, toI32_mod_toNat, h1, h2]
  · have h1 : x2 % 2 ^ 32 % 32 = x2 % 32 := by omega
    have h2 : x2 % 32 % 2 ^ 32 % 32 = x2 % 32 := by omega
    simp only [i32_rotr, rotr32, toI32_mod_toNat, h1, h2]
  · simp only [i64_shl, shAmt64_toI64_tmod, hm64]
  · simp only [i64_shrs, shAmt64_toI64_tmod, hm64]
  · have h1 : x2 % 2 ^ 64 % 64 % 64 = x2 % 64 := by omega
    have h2 : x2 % 64 % 2 ^ 64 % 64 % 64 = x2 % 64 := by omega
    simp only [i64_shru, h1, h2]
  · have h1 : x2 % 2 ^ 32 % 64 = x2 % 64 := by omega
    have h2 : x2 % 64 % 2 ^ 32 % 64 = x2 % 64 := by omega
    simp only [i64_rotl, rotl64, toI64_mod64_toNat, toI64_mod32_toNat, h1, h2]
  · have h1 : x2 % 2 ^ 32 % 64 = x2 % 64 := by omega
    have h2 : x2 % 64 % 2 ^ 32 % 64 = x2 % 64 := by omega
    simp only [i64_rotr, rotr64, toI64_mod64_toNat, toI64_mod32_toNat, h1, h2]

/-! ## Claim C7: `call_indirect`

The type check compares the *strings* produced by
`FuncType::get_signature`; the lemmas below show that this string is an
injective encoding of the `FuncType`, so signature equality is structural
equality. -/

theorem append_sep_inj (c : Char) :
    ∀ A A' r r' : List Char, c ∉ A → c ∉ A' →
      A ++ c :: r = A' ++ c :: r' → A = A' ∧ r = r' := by
  intro A
  induction A with
  | nil =>
    intro A' r r' _ hA' h
    cases A' with
    | nil => simpa using h
    | cons b t =>
      simp only [List.nil_append, List.cons_append, List.cons.injEq] at h
      cases h.1
      exact absurd (List.mem_cons_self _ _) hA'
  | cons a s ih =>
    intro A' r r' hA hA' h
    simp only [List.mem_cons, not_or] at hA
    cases A' with
    | nil =>
      simp only [List.cons_append, List.nil_append, List.cons.injEq] at h
      exact absurd h.1.symm hA.1
    | cons b t =>
      simp only [List.mem_cons, not_or] at hA'
      simp only [List.cons_append, List.cons.injEq] at h
      obtain ⟨h1, h2⟩ := ih t r r' hA.2 hA'.2 h.2
      exact ⟨by rw [h.1, h1], h2⟩

theorem joinComma_inj :
    ∀ ns ms : List (List Char),
      (∀ l ∈ ns, l ≠ [] ∧ ',' ∉ l) → (∀ l ∈ ms, l ≠ [] ∧ ',' ∉ l) →
      joinComma ns = joinComma ms → ns = ms := by
  intro ns
  induction ns with
  | nil =>
    intro ms hns hms h
    cases ms with
    | nil => rfl
    | cons m u =>
      cases u with
      | nil =>
        simp only [joinComma] at h
        exact absurd h.symm (hms m (by simp)).1
      | cons u1 u2 =>
        exfalso
        simp only [joinComma] at h
        have := congrArg List.length h
        simp only [List.length_nil, List.length_append, List.length_cons] at this
        omega
  | cons n t ih =>
    intro ms hns hms h
    cases ms with
    | nil =>
      cases t with
      | nil =>
        simp only [joinComma] at h
        exact absurd h (hns n (by simp)).1
      | cons t1 t2 =>
        exfalso
        simp only [joinComma] at h
        have := congrArg List.length h
        simp only [List.length_nil, List.length_append, List.length_cons] at this
        omega
    | cons m u =>
      cases t with
      | nil =>
        cases u with
        | nil =>
          simp only [joinComma] at h
          rw [h]
        | cons u1 u2 =>
          exfalso
          simp only [joinComma] at h
          exact (hns n (by simp)).2 (h ▸ (by simp : ',' ∈ m ++ ',' :: joinComma (u1 :: u2)))
      | cons t1 t2 =>
        cases u with
        | nil =>
          exfalso
          simp only [joinComma] at h
          exact (hms m (by simp)).2 (h ▸ (by simp : ',' ∈ n ++ ',' :: joinComma (t1 :: t2)))
        | cons u1 u2 =>
          simp only [joinComma] at h
          obtain ⟨h1, h2⟩ := append_sep_inj ',' n m _ _ (hns n (by simp)).2
            (hms m (by simp)).2 h
          have h3 := ih (u1 :: u2) (fun l hl => hns l (by simp [hl]))
            (fun l hl => hms l (by simp [hl])) h2
          rw [h1, h3]

theorem valTypeName_ok (v : ValType) :
    valTypeName v ≠ [] ∧ ',' ∉ valTypeName v ∧ ')' ∉ valTypeName v := by
  cases v <;> decide

theorem valTypeName_inj : ∀ v w : ValType, valTypeName v = valTypeName w → v = w := by
  intro v w
  cases v <;> cases w <;> decide

theorem map_names_ok (ts : List ValType) :
    ∀ l ∈ ts.map valTypeName, l ≠ [] ∧ ',' ∉ l := by
  intro l hl
  obtain ⟨v, _, rfl⟩ := List.mem_map.mp hl
  exact ⟨(valTypeName_ok v).1, (valTypeName_ok v).2.1⟩

theorem joinComma_no_paren (ts : List ValType) :
    ')' ∉ joinComma (ts.map valTypeName) := by
  induction ts with
  | nil => simp [joinComma]
  | cons v t ih =>
    cases t with
    | nil =>
      simp only [List.map_cons, List.map_nil, joinComma]
      exact (valTypeName_ok v).2.2
    | cons w u =>
      simp only [List.map_cons, joinComma]
      intro hmem
      simp only [List.mem_append, List.mem_cons] at hmem
      rcases hmem with hv | hc | hrest
      · exact (valTypeName_ok v).2.2 hv
      · exact absurd hc (by decide)
      · exact ih (by simpa [joinComma] using hrest)

/-- `get_signature` is an injective encoding: two function types with equal
signature strings are structurally equal. -/
theorem get_signature_inj (a b : FuncType)
    (h : a.get_signature = b.get_signature) : a = b := by
  rw [FuncType.get_signature, FuncType.get_signature] at h
  injection h with _ h
  obtain ⟨hP, hrest⟩ := append_sep_inj ')' _ _ _ _ (joinComma_no_paren _)
    (joinComma_no_paren _) h
  injection hrest with _ hrest
  injection hrest with _ hrest
  injection hrest with _ hrest
  obtain ⟨hR, -⟩ := append_sep_inj ')' _ _ [] [] (joinComma_no_paren _)
    (joinComma_no_paren _) hrest
  have hPs := joinComma_inj _ _ (map_names_ok _) (map_names_ok _) hP
  have hRs := joinComma_inj _ _ (map_names_ok _) (map_names_ok _) hR
  have hinj : Function.Injective valTypeName := fun v w => valTypeName_inj v w
  have hp : a.paramsTypes = b.paramsTypes := List.map_injective_iff.mpr hinj hPs
  have hr : a.resultTypes = b.resultTypes := List.map_injective_iff.mpr hinj hRs
  rcases a with ⟨ap, ar⟩
  rcases b with ⟨bp, br⟩
  simp only at hp hr
  rw [hp, hr]

/-- C7: `call_indirect` with type index pointing at `ft` traps when there
is no table; traps when the popped index `i` is at or beyond the table
size; traps when the entry at `i` has a type not structurally equal to
`ft`; traps when the entry is unbound; and otherwise invokes the entry as
an ordinary internal or external call. -/
theorem call_indirect_spec (t : Table) (typeSec : List FuncType)
    (typeIdx i : Nat) (ft : FuncType)
    (hft : typeSec.get? typeIdx = some ft) :
    (callIndirect none typeSec typeIdx i = .trap) ∧
    (t.size ≤ i → callIndirect (some t) typeSec typeIdx i = .trap) ∧
    (∀ f, t.elems.get? i = some f → f.funcType ≠ ft →
      callIndirect (some t) typeSec typeIdx i = .trap) ∧
    (∀ f, t.elems.get? i = some f → f.code = none → f.nativeFunc = false →
      callIndirect (some t) typeSec typeIdx i = .trap) ∧
    (∀ f, t.elems.get? i = some f → f.funcType = ft → f.code.isSome →
      callIndirect (some t) typeSec typeIdx i = .callInternal f) ∧
    (∀ f, t.elems.get? i = some f → f.funcType = ft → f.code = none →
      f.nativeFunc = true →
      callIndirect (some t) typeSec typeIdx i = .callExternal f) := by
  have hft' : typeSec[typeIdx]? = some ft := by
    rw [← List.get?_eq_getElem?]
    exact hft
  refine ⟨rfl, ?_, ?_, ?_, ?_, ?_⟩
  · intro hsize
    by_cases hgt : t.size < i
    · simp [callIndirect, hgt]
    · have hi : i = t.size := by omega
      have hnone : t.elems[i]? = none := by
        rw [← List.get?_eq_getElem?, List.get?_eq_none, hi]
        exact le_refl _
      simp [callIndirect, hgt, hnone]
  · intro f hf hne
    have hf' : t.elems[i]? = some f := by
      rw [← List.get?_eq_getElem?]
      exact hf
    have hlt : i < t.elems.length := (List.get?_eq_some.mp hf).1
    have hngt : ¬ t.size < i := by
      have hsz : t.size = t.elems.length := rfl
      omega
    have hsig : f.funcType.get_signature ≠ ft.get_signature :=
      fun hs => hne (get_signature_inj _ _ hs)
    simp [callIndirect, hngt, hf', hft', hsig]
  · intro f hf hc hn
    have hf' : t.elems[i]? = some f := by
      rw [← List.get?_eq_getElem?]
      exact hf
    have hlt : i < t.elems.length := (List.get?_eq_some.mp hf).1
    have hngt : ¬ t.size < i := by
      have hsz : t.size = t.elems.length := rfl
      omega
    by_cases hsig : f.funcType.get_signature = ft.get_signature
    · simp [callIndirect, hngt, hf', hft', hsig, hc, hn]
    · simp [callIndirect, hngt, hf', hft', hsig]
  · intro f hf hty hc
    have hf' : t.elems[i]? = some f := by
      rw [← List.get?_eq_getElem?]
      exact hf
    have hlt : i < t.elems.length := (List.get?_eq_some.mp hf).1
    have hngt : ¬ t.size < i := by
      have hsz : t.size = t.elems.length := rfl
      omega
    have hsig : f.funcType.get_signature = ft.get_signature := by rw [hty]
    simp [callIndirect, hngt, hf', hft', hsig, hc]
  · intro f hf hty hc hn
    have hf' : t.elems[i]? = some f := by
      rw [← List.get?_eq_getElem?]
      exact hf
    have hlt : i < t.elems.length := (List.get?_eq_some.mp hf).1
    have hngt : ¬ t.size < i := by
      have hsz : t.size = t.elems.length := rfl
      omega
    have hsig : f.funcType.get_signature = ft.get_signature := by rw [hty]
    simp [callIndirect, hngt, hf', hft', hsig, hc, hn]

/-- C7 witness: on a one-element table holding an internal function of type
`(i32) -> (i32)`, `call_indirect` with matching type index invokes it as an
internal call, and with index 1 (= table size) it traps. -/
theorem call_indirect_spec_witness :
    callIndirect (some ⟨⟨ValType.funcRef, ⟨1, none⟩⟩,
        [⟨⟨[ValType.i32], [ValType.i32]⟩, some ⟨[], []⟩, false⟩]⟩)
      [⟨[ValType.i32], [ValType.i32]⟩] 0 0 =
      CallAction.callInternal ⟨⟨[ValType.i32], [ValType.i32]⟩, some ⟨[], []⟩, false⟩ ∧
    callIndirect (some ⟨⟨ValType.funcRef, ⟨1, none⟩⟩,
        [⟨⟨[ValType.i32], [ValType.i32]⟩, some ⟨[], []⟩, false⟩]⟩)
      [⟨[ValType.i32], [ValType.i32]⟩] 0 1 = CallAction.trap := by
  constructor
  · exact (call_indirect_spec ⟨⟨ValType.funcRef, ⟨1, none⟩⟩,
      [⟨⟨[ValType.i32], [ValType.i32]⟩, some ⟨[], []⟩, false⟩]⟩
      [⟨[ValType.i32], [ValType.i32]⟩] 0 0 ⟨[ValType.i32], [ValType.i32]⟩
      rfl).2.2.2.2.1 ⟨⟨[ValType.i32], [ValType.i32]⟩, some ⟨[], []⟩, false⟩
      rfl rfl rfl
  · exact (call_indirect_spec ⟨⟨ValType.funcRef, ⟨1, none⟩⟩,
      [⟨⟨[ValType.i32], [ValType.i32]⟩, some ⟨[], []⟩, false⟩]⟩
      [⟨[ValType.i32], [ValType.i32]⟩] 0 1 ⟨[ValType.i32], [ValType.i32]⟩
      rfl).2.1 (by decide)

end Rasm
